import Mathlib

/-!
Verification of the numeric image-correction pipeline of AutoFilmProc
(src/AFP.py): the negative inverter (`255 - image_array`, AFP.py line 144),
the border-referenced color balancer (`auto_balance_color`, lines 12-35),
the exposure normalizer (`auto_adjust_exposure`, lines 37-57) and the
batch driver (`batch_process_images`, lines 161-202).

Modelling conventions:
* A pixel buffer (NumPy uint8 array of shape (h, w, 3)) is a list of rows,
  each row a list of `Pixel` records with natural-number samples; the
  uint8 range invariant `s ≤ 255` is carried as an explicit hypothesis
  (`Valid`).
* NumPy float64 arithmetic is modelled by exact rational arithmetic ℚ.
* Assigning a float array into a uint8 array (`balanced_image[:, :, 0] = ...`,
  `adjusted_image.astype(np.uint8)`) truncates toward zero; on the
  clipped-to-[0,255] values this is `Int.toNat ∘ Int.floor`.
* The Python code guards none of its divisions.  Where NumPy would produce
  NaN or Inf (mean over an empty border slice, or a zero channel/brightness
  mean) and then cast NaN through `np.clip`/uint8 assignment — an undefined,
  garbage result, not an exception — the model returns `none`.  A `some`
  result is exactly the NaN/Inf-free path of the Python code.
-/

/-- One RGB pixel: three unsigned 8-bit samples (range carried separately). -/
structure Pixel where
  r : ℕ
  g : ℕ
  b : ℕ
deriving Repr, DecidableEq

/-- A pixel buffer: rows of pixels, modelling a (h, w, 3) uint8 NumPy array. -/
abbrev PixelBuffer := List (List Pixel)

/-- All samples of a buffer, flattened (r, g, b per pixel, row-major). -/
def allSamples (img : PixelBuffer) : List ℕ :=
  img.foldr (fun row acc => row.foldr (fun p acc2 => p.r :: p.g :: p.b :: acc2) acc) []

/-- The samples of one channel (`c` selects it) over a region, row-major;
models `area[:, :, i]` flattened. -/
def channelSamples (c : Pixel → ℕ) (region : PixelBuffer) : List ℕ :=
  region.foldr (fun row acc => row.map c ++ acc) []

/-- Number of pixels in a region (`height * width` for a rectangular one). -/
def pixelCount (region : PixelBuffer) : ℕ :=
  (region.map List.length).sum

/-- The uint8 range invariant NumPy's dtype guarantees for decoded images. -/
def Valid (img : PixelBuffer) : Prop :=
  ∀ s ∈ allSamples img, s ≤ 255

instance (img : PixelBuffer) : Decidable (Valid img) := by
  unfold Valid; infer_instance

/-- `np.mean(area[:, :, c])`: channel sum over channel count, as an exact
rational.  Meaningful only when the region is nonempty (NumPy yields NaN
on an empty slice; callers model that case as `none`). -/
def channelMean (c : Pixel → ℕ) (region : PixelBuffer) : ℚ :=
  ((channelSamples c region).sum : ℚ) / (pixelCount region : ℚ)

/-- `int(image_array.shape[0] * 0.05)` (AFP.py line 18): the float product
rounds to within 2⁻⁵² of the real value, so the truncation equals
⌊h/20⌋ for every realistic height. -/
def borderHeight (h : ℕ) : ℕ :=
  h * 5 / 100

/-- `np.clip(x, 0, 255)` on one value. -/
def clipQ (x : ℚ) : ℚ :=
  min 255 (max 0 x)

/-- Writing a clipped float back into a uint8 array truncates toward zero;
for the nonnegative clipped values this is the floor. -/
def quantize (x : ℚ) : ℕ :=
  (Int.floor (clipQ x)).toNat

/-- `border_area = image_array[:border_height, :, :]` (AFP.py lines 18-19). -/
def borderArea (image_array : PixelBuffer) : PixelBuffer :=
  image_array.take (borderHeight image_array.length)

/-- `mean_red = np.mean(border_area[:, :, 0])` (AFP.py line 21). -/
def meanRed (image_array : PixelBuffer) : ℚ :=
  channelMean Pixel.r (borderArea image_array)

/-- `mean_green = np.mean(border_area[:, :, 1])` (AFP.py line 22). -/
def meanGreen (image_array : PixelBuffer) : ℚ :=
  channelMean Pixel.g (borderArea image_array)

/-- `mean_blue = np.mean(border_area[:, :, 2])` (AFP.py line 23). -/
def meanBlue (image_array : PixelBuffer) : ℚ :=
  channelMean Pixel.b (borderArea image_array)

/-- `mean_gray = (mean_red + mean_green + mean_blue) / 3` (AFP.py line 25). -/
def meanGray (image_array : PixelBuffer) : ℚ :=
  (meanRed image_array + meanGreen image_array + meanBlue image_array) / 3

/-- `red_correction = mean_gray / mean_red` (AFP.py line 26). -/
def redCorrection (image_array : PixelBuffer) : ℚ :=
  meanGray image_array / meanRed image_array

/-- `green_correction = mean_gray / mean_green` (AFP.py line 27). -/
def greenCorrection (image_array : PixelBuffer) : ℚ :=
  meanGray image_array / meanGreen image_array

/-- `blue_correction = mean_gray / mean_blue` (AFP.py line 28). -/
def blueCorrection (image_array : PixelBuffer) : ℚ :=
  meanGray image_array / meanBlue image_array

/-- One pixel of AFP.py lines 31-33: each channel scaled by its correction,
clipped, and truncated by the assignment into the uint8 array. -/
def balancePixel (image_array : PixelBuffer) (p : Pixel) : Pixel :=
  ⟨quantize (p.r * redCorrection image_array),
   quantize (p.g * greenCorrection image_array),
   quantize (p.b * blueCorrection image_array)⟩

/-- `auto_balance_color` (AFP.py lines 12-35): gains from the border strip's
channel means, applied per channel with clip to [0,255] and uint8
truncation.  `none` models the unguarded NaN paths: an empty border slice
(`int(h*0.05) = 0` or zero width) or a zero channel mean, where the Python
code computes NaN/Inf corrections and casts them into the uint8 result
without raising any exception. -/
def auto_balance_color (image_array : PixelBuffer) : Option PixelBuffer :=
  if pixelCount (borderArea image_array) = 0 then none
  else if meanRed image_array = 0 ∨ meanGreen image_array = 0 ∨
      meanBlue image_array = 0 then none
  else some (image_array.map (List.map (balancePixel image_array)))

/-- `np.mean(np.mean(image_array, axis=2))` (AFP.py lines 44-45): the mean
of the per-pixel channel means equals `(Σ all samples) / (3 · #pixels)`
exactly.  Meaningful only for a nonempty buffer. -/
def meanBrightness (img : PixelBuffer) : ℚ :=
  ((allSamples img).sum : ℚ) / (3 * (pixelCount img : ℚ))

/-- `adjustment_factor = target_brightness / mean_brightness` with
`target_brightness = 128.0` (AFP.py lines 48-51). -/
def adjustmentFactor (image_array : PixelBuffer) : ℚ :=
  (128 : ℚ) / meanBrightness image_array

/-- One pixel of AFP.py lines 54-57: every channel scaled by the adjustment
factor, clipped, and truncated by `astype(np.uint8)`. -/
def exposurePixel (image_array : PixelBuffer) (p : Pixel) : Pixel :=
  ⟨quantize (p.r * adjustmentFactor image_array),
   quantize (p.g * adjustmentFactor image_array),
   quantize (p.b * adjustmentFactor image_array)⟩

/-- `auto_adjust_exposure` (AFP.py lines 37-57): scale every sample by
`128.0 / mean_brightness`, clip, truncate to uint8.  `none` models the
unguarded division's NaN/Inf path (empty buffer or zero mean brightness,
i.e. an all-black image), where Python proceeds with Inf/NaN values and
never raises. -/
def auto_adjust_exposure (image_array : PixelBuffer) : Option PixelBuffer :=
  if pixelCount image_array = 0 then none
  else if meanBrightness image_array = 0 then none
  else some (image_array.map (List.map (exposurePixel image_array)))

/-- `inverted_image = 255 - image_array` (AFP.py line 144): uint8 arithmetic,
exact complement for samples ≤ 255 (uint8 guarantees this; ℕ truncated
subtraction agrees on that range). -/
def invert_negative (image_array : PixelBuffer) : PixelBuffer :=
  image_array.map (List.map (fun p => ⟨255 - p.r, 255 - p.g, 255 - p.b⟩))

/-- All samples of the buffer lie in the uint8 range [0, 255]
(the lower bound is inherent to ℕ). -/
def InRange (img : PixelBuffer) : Prop :=
  ∀ s ∈ allSamples img, s ≤ 255

instance (img : PixelBuffer) : Decidable (InRange img) := by
  unfold InRange; infer_instance

/-- Modelled from the spec's words, for refinement comparison only (§4.2
"clamp to [0,255], rounding to the nearest integer sample"): like
`quantize` but rounding to the nearest integer instead of truncating. -/
def quantizeRound (x : ℚ) : ℕ :=
  (round (clipQ x)).toNat

/-- Modelled from the spec's words, for refinement comparison only: the
balancer's per-pixel application with round-to-nearest quantization. -/
def balancePixelRound (image_array : PixelBuffer) (p : Pixel) : Pixel :=
  ⟨quantizeRound (p.r * redCorrection image_array),
   quantizeRound (p.g * greenCorrection image_array),
   quantizeRound (p.b * blueCorrection image_array)⟩

/-- Modelled from the spec's words, for refinement comparison only: the
color balancer as the spec describes it, with round-to-nearest
quantization of the clamped scaled samples. -/
def auto_balance_color_rounded (image_array : PixelBuffer) :
    Option PixelBuffer :=
  if pixelCount (borderArea image_array) = 0 then none
  else if meanRed image_array = 0 ∨ meanGreen image_array = 0 ∨
      meanBlue image_array = 0 then none
  else some (image_array.map (List.map (balancePixelRound image_array)))

-- The batch driver (AFP.py lines 161-202).

/-- One regular file of the chosen folder: its name and, if `PIL.Image.open`
plus the array conversion succeed, the decoded pixel buffer (`none` models
a corrupt/unreadable file, the exception path of the per-file `try`). -/
structure BatchFile where
  name : String
  decoded : Option PixelBuffer
deriving Repr, DecidableEq

/-- Observable per-file and terminal effects of `batch_process_images`:
the per-file error dialog (`QMessageBox.warning`, line 200), the per-file
save (`enhanced_image.save`, line 197), and the terminal dialog
(`QMessageBox.information`, line 202). -/
inductive BatchEvent where
  | warning (fileName : String)
  | saved (fileName : String)
  | info (msg : String)
deriving Repr, DecidableEq

/-- The fixed terminal message of AFP.py line 202 ("all images processed
and saved successfully") — emitted unconditionally, with no counts. -/
def finalMessage : String := "所有图像已成功处理并保存。"

/-- One iteration of the `for file_name in os.listdir(...)` loop body
(AFP.py lines 170-200): the whole body runs inside `try`; a failure is
caught, reported for that file, and the loop continues. -/
def batchStep (f : BatchFile) : BatchEvent :=
  match f.decoded with
  | none => BatchEvent.warning f.name
  | some _ => BatchEvent.saved f.name

/-- The loop of AFP.py lines 170-200, in order. -/
def batchLoop : List BatchFile → List BatchEvent
  | [] => []
  | f :: rest => batchStep f :: batchLoop rest

/-- `batch_process_images` (AFP.py lines 161-202): run the loop over every
file, then always show the fixed terminal message of line 202. -/
def batch_process_images (files : List BatchFile) : List BatchEvent :=
  batchLoop files ++ [BatchEvent.info finalMessage]

-- A NumPy-array store, for the observable-mutation claim: arrays live in
-- a heap addressed by allocation order; `copy`, `255 - a` and `a * c`
-- allocate fresh arrays, while slice assignment writes in place.

/-- The store of live NumPy arrays; an array id is its allocation index. -/
structure NpHeap where
  arrays : List PixelBuffer
deriving Repr

/-- Dereference an array id. -/
def NpHeap.read (h : NpHeap) (i : ℕ) : PixelBuffer :=
  h.arrays.getD i []

/-- Allocate a fresh array (`copy()`, `255 - a`, `a * c` all allocate). -/
def NpHeap.alloc (h : NpHeap) (b : PixelBuffer) : NpHeap × ℕ :=
  (⟨h.arrays ++ [b]⟩, h.arrays.length)

/-- In-place update of an existing array (slice assignment). -/
def NpHeap.write (h : NpHeap) (i : ℕ) (b : PixelBuffer) : NpHeap :=
  ⟨h.arrays.set i b⟩

/-- `balanced_image[:, :, 0] = np.clip(balanced_image[:, :, 0] * red_correction, 0, 255)`
(AFP.py line 31): the value written back over channel 0. -/
def applyRedGain (corr : ℚ) (buf : PixelBuffer) : PixelBuffer :=
  buf.map (List.map (fun p => ⟨quantize (p.r * corr), p.g, p.b⟩))

/-- AFP.py line 32: the value written back over channel 1. -/
def applyGreenGain (corr : ℚ) (buf : PixelBuffer) : PixelBuffer :=
  buf.map (List.map (fun p => ⟨p.r, quantize (p.g * corr), p.b⟩))

/-- AFP.py line 33: the value written back over channel 2. -/
def applyBlueGain (corr : ℚ) (buf : PixelBuffer) : PixelBuffer :=
  buf.map (List.map (fun p => ⟨p.r, p.g, quantize (p.b * corr)⟩))

/-- `auto_balance_color` at the store level: gains are computed from the
input array by pure reads; `balanced_image = image_array.copy()` (line 30)
allocates, and the three channel assignments (lines 31-33) mutate only
the copy.  The input array is never written. -/
def auto_balance_color_st (h : NpHeap) (imgId : ℕ) : NpHeap × Option ℕ :=
  let img := h.read imgId
  if pixelCount (borderArea img) = 0 then (h, none)
  else if meanRed img = 0 ∨ meanGreen img = 0 ∨ meanBlue img = 0 then (h, none)
  else
    let h1 := (h.alloc img).1
    let balId := (h.alloc img).2
    let h2 := h1.write balId (applyRedGain (redCorrection img) (h1.read balId))
    let h3 := h2.write balId (applyGreenGain (greenCorrection img) (h2.read balId))
    let h4 := h3.write balId (applyBlueGain (blueCorrection img) (h3.read balId))
    (h4, some balId)

/-- `inverted_image = 255 - image_array` (AFP.py line 144) at the store
level: allocates the complement, never writes the input. -/
def invert_negative_st (h : NpHeap) (imgId : ℕ) : NpHeap × ℕ :=
  h.alloc (invert_negative (h.read imgId))

/-- `auto_adjust_exposure` at the store level: `image_array *
adjustment_factor` (line 54) allocates a fresh float array that `np.clip`
and `astype` replace by further fresh arrays; the input is never
written. -/
def auto_adjust_exposure_st (h : NpHeap) (imgId : ℕ) : NpHeap × Option ℕ :=
  let img := h.read imgId
  if pixelCount img = 0 then (h, none)
  else if meanBrightness img = 0 then (h, none)
  else ((h.alloc (img.map (List.map (exposurePixel img)))).1,
    some (h.alloc (img.map (List.map (exposurePixel img)))).2)

-- Concrete buffers used by witnesses and counterexamples.  Heights are
-- 20 rows (the smallest with a nonempty 5% border) or degenerate.

/-- A 20×1 all-ones buffer: nonempty border, equal nonzero channel means. -/
def ones20 : PixelBuffer :=
  List.replicate 20 [⟨1, 1, 1⟩]

/-- A 20×1 all-black buffer: every channel mean and the mean brightness
are zero. -/
def allBlack20 : PixelBuffer :=
  List.replicate 20 [⟨0, 0, 0⟩]

/-- A 10×1 buffer: `int(10 * 0.05) = 0`, so the border slice is empty. -/
def short10 : PixelBuffer :=
  List.replicate 10 [⟨100, 100, 100⟩]

/-- 1×10 buffer, nine black pixels and one bright one: heavy clipping under
exposure normalization. -/
def clipped10 : PixelBuffer :=
  [[⟨0, 0, 0⟩, ⟨0, 0, 0⟩, ⟨0, 0, 0⟩, ⟨0, 0, 0⟩, ⟨0, 0, 0⟩, ⟨0, 0, 0⟩,
    ⟨0, 0, 0⟩, ⟨0, 0, 0⟩, ⟨0, 0, 0⟩, ⟨200, 200, 200⟩]]

/-- What `auto_adjust_exposure` produces on `clipped10`. -/
def clipped10Out : PixelBuffer :=
  [[⟨0, 0, 0⟩, ⟨0, 0, 0⟩, ⟨0, 0, 0⟩, ⟨0, 0, 0⟩, ⟨0, 0, 0⟩, ⟨0, 0, 0⟩,
    ⟨0, 0, 0⟩, ⟨0, 0, 0⟩, ⟨0, 0, 0⟩, ⟨255, 255, 255⟩]]

/-- 20×3 buffer whose border row has one saturated blue sample among zero
blue samples: the blue gain saturates that sample under `np.clip`. -/
def borderClip20 : PixelBuffer :=
  [⟨255, 255, 255⟩, ⟨255, 255, 0⟩, ⟨255, 255, 0⟩] ::
    List.replicate 19 [⟨0, 0, 0⟩, ⟨0, 0, 0⟩, ⟨0, 0, 0⟩]

/-- What `auto_balance_color` produces on `borderClip20`. -/
def borderClip20Out : PixelBuffer :=
  [⟨198, 198, 255⟩, ⟨198, 198, 0⟩, ⟨198, 198, 0⟩] ::
    List.replicate 19 [⟨0, 0, 0⟩, ⟨0, 0, 0⟩, ⟨0, 0, 0⟩]

/-- 20×1 buffer with border means (1, 2, 3) and one blue sample 4 in the
body, whose scaled value 8/3 separates truncation from rounding. -/
def fracGain20 : PixelBuffer :=
  [⟨1, 2, 3⟩] :: List.replicate 18 [⟨0, 0, 0⟩] ++ [[⟨0, 0, 4⟩]]

/-- What `auto_balance_color` produces on `fracGain20` (truncation: the
blue sample 4 scales to 8/3 and lands on 2). -/
def fracGain20Out : PixelBuffer :=
  [⟨2, 2, 2⟩] :: List.replicate 18 [⟨0, 0, 0⟩] ++ [[⟨0, 0, 2⟩]]

/-- What the spec's round-to-nearest balancer produces on `fracGain20`
(8/3 rounds to 3). -/
def fracGain20RoundOut : PixelBuffer :=
  [⟨2, 2, 2⟩] :: List.replicate 18 [⟨0, 0, 0⟩] ++ [[⟨0, 0, 3⟩]]

/-- A batch file whose decode fails (`Image.open` raises). -/
def corruptFile : BatchFile := ⟨"corrupt.png", none⟩

/-- A batch file that decodes to a 1×1 buffer. -/
def okFile : BatchFile := ⟨"ok.png", some [[⟨1, 1, 1⟩]]⟩

/-- A one-array store holding a 1×1 buffer, for the mutation witness. -/
def heap0 : NpHeap := ⟨[[[⟨1, 2, 3⟩]]]⟩

-- Basic facts about the flattening functions.

theorem allSamples_cons (row : List Pixel) (rest : PixelBuffer) :
    allSamples (row :: rest) =
      row.foldr (fun p acc => p.r :: p.g :: p.b :: acc) (allSamples rest) := rfl

theorem channelSamples_cons (c : Pixel → ℕ) (row : List Pixel)
    (rest : PixelBuffer) :
    channelSamples c (row :: rest) = row.map c ++ channelSamples c rest := rfl

theorem mem_allSamples_map (u : ℕ → ℕ) (img : PixelBuffer) :
    allSamples (img.map (List.map (fun p : Pixel =>
        Pixel.mk (u p.r) (u p.g) (u p.b)))) = (allSamples img).map u := by
  induction img with
  | nil => rfl
  | cons row rest ih =>
    simp only [List.map_cons, allSamples_cons, ih]
    induction row with
    | nil => rfl
    | cons p ps ihr => simp [List.foldr_cons, ihr]

/-- All pixels of a buffer, row-major. -/
def allPixels (img : PixelBuffer) : List Pixel :=
  img.foldr (fun row acc => row ++ acc) []

theorem allPixels_cons (row : List Pixel) (rest : PixelBuffer) :
    allPixels (row :: rest) = row ++ allPixels rest := rfl

theorem allPixels_map (F : Pixel → Pixel) (img : PixelBuffer) :
    allPixels (img.map (List.map F)) = (allPixels img).map F := by
  induction img with
  | nil => rfl
  | cons row rest ih => simp [allPixels_cons, ih]

theorem allSamples_eq_allPixels (img : PixelBuffer) :
    allSamples img =
      (allPixels img).foldr (fun p acc => p.r :: p.g :: p.b :: acc) [] := by
  induction img with
  | nil => rfl
  | cons row rest ih =>
    rw [allSamples_cons, allPixels_cons, List.foldr_append, ← ih]

theorem mem_allSamples_iff (img : PixelBuffer) (s : ℕ) :
    s ∈ allSamples img ↔
      ∃ p ∈ allPixels img, s = p.r ∨ s = p.g ∨ s = p.b := by
  rw [allSamples_eq_allPixels]
  induction allPixels img with
  | nil => simp
  | cons p ps ih =>
    simp only [List.foldr_cons, List.mem_cons, ih, List.mem_cons]
    constructor
    · rintro (h | h | h)
      · exact ⟨p, Or.inl rfl, Or.inl h⟩
      · exact ⟨p, Or.inl rfl, Or.inr (Or.inl h)⟩
      · rcases h with h | ⟨q, hq, hsq⟩
        · exact ⟨p, Or.inl rfl, Or.inr (Or.inr h)⟩
        · exact ⟨q, Or.inr hq, hsq⟩
    · rintro ⟨q, hq | hq, hsq⟩
      · subst hq
        rcases hsq with h | h | h
        · exact Or.inl h
        · exact Or.inr (Or.inl h)
        · exact Or.inr (Or.inr (Or.inl h))
      · exact Or.inr (Or.inr (Or.inr ⟨q, hq, hsq⟩))

theorem channelSamples_eq_allPixels (c : Pixel → ℕ) (img : PixelBuffer) :
    channelSamples c img = (allPixels img).map c := by
  induction img with
  | nil => rfl
  | cons row rest ih => simp [channelSamples_cons, allPixels_cons, ih]

theorem pixelCount_cons (row : List Pixel) (rest : PixelBuffer) :
    pixelCount (row :: rest) = row.length + pixelCount rest := by
  simp [pixelCount]

theorem pixelCount_eq_allPixels (img : PixelBuffer) :
    pixelCount img = (allPixels img).length := by
  induction img with
  | nil => rfl
  | cons row rest ih =>
    rw [pixelCount_cons, allPixels_cons, List.length_append, ih]

theorem pixelCount_map (F : Pixel → Pixel) (img : PixelBuffer) :
    pixelCount (img.map (List.map F)) = pixelCount img := by
  simp [pixelCount_eq_allPixels, allPixels_map]

/-- The total sample sum splits into the three channel sums. -/
theorem allSamples_sum_eq_channels (img : PixelBuffer) :
    (allSamples img).sum =
      (channelSamples Pixel.r img).sum + (channelSamples Pixel.g img).sum +
        (channelSamples Pixel.b img).sum := by
  rw [allSamples_eq_allPixels, channelSamples_eq_allPixels,
    channelSamples_eq_allPixels, channelSamples_eq_allPixels]
  induction allPixels img with
  | nil => rfl
  | cons p ps ih => simp [List.foldr_cons, ih]; ring

-- Facts about clip and the uint8 truncation.

theorem clipQ_le_255 (x : ℚ) : clipQ x ≤ 255 := min_le_left _ _

theorem clipQ_nonneg (x : ℚ) : 0 ≤ clipQ x :=
  le_min (by norm_num) (le_max_left 0 x)

theorem clipQ_of_mem (x : ℚ) (h0 : 0 ≤ x) (h255 : x ≤ 255) : clipQ x = x := by
  unfold clipQ
  rw [max_eq_right h0, min_eq_right h255]

theorem quantize_le_255 (x : ℚ) : quantize x ≤ 255 := by
  unfold quantize
  have h1 : ((Int.floor (clipQ x) : ℤ) : ℚ) ≤ 255 :=
    le_trans (Int.floor_le _) (clipQ_le_255 x)
  have h : Int.floor (clipQ x) ≤ (255 : ℤ) := by exact_mod_cast h1
  omega

theorem quantize_bounds (x : ℚ) (h0 : 0 ≤ x) (h255 : x ≤ 255) :
    (quantize x : ℚ) ≤ x ∧ x - 1 < (quantize x : ℚ) := by
  unfold quantize
  rw [clipQ_of_mem x h0 h255]
  have hfl : (0 : ℤ) ≤ Int.floor x := by
    exact_mod_cast Int.le_floor.mpr (by exact_mod_cast h0)
  have hcast : ((Int.floor x).toNat : ℚ) = ((Int.floor x : ℤ) : ℚ) := by
    exact_mod_cast Int.toNat_of_nonneg hfl
  constructor
  · rw [hcast]; exact Int.floor_le x
  · rw [hcast]
    have := Int.sub_one_lt_floor x
    linarith

-- Destructuring the Option results of the two unguarded stages.

theorem auto_balance_color_some {img out : PixelBuffer}
    (h : auto_balance_color img = some out) :
    pixelCount (borderArea img) ≠ 0 ∧ meanRed img ≠ 0 ∧ meanGreen img ≠ 0 ∧
      meanBlue img ≠ 0 ∧ out = img.map (List.map (balancePixel img)) := by
  unfold auto_balance_color at h
  split_ifs at h with h1 h2
  · push_neg at h2
    exact ⟨h1, h2.1, h2.2.1, h2.2.2, (Option.some.inj h).symm⟩

theorem auto_adjust_exposure_some {img out : PixelBuffer}
    (h : auto_adjust_exposure img = some out) :
    pixelCount img ≠ 0 ∧ meanBrightness img ≠ 0 ∧
      out = img.map (List.map (exposurePixel img)) := by
  unfold auto_adjust_exposure at h
  split_ifs at h with h1 h2
  exact ⟨h1, h2, (Option.some.inj h).symm⟩

-- Range facts.

theorem inRange_pixelMap (F : Pixel → Pixel)
    (hF : ∀ p, (F p).r ≤ 255 ∧ (F p).g ≤ 255 ∧ (F p).b ≤ 255)
    (img : PixelBuffer) : InRange (img.map (List.map F)) := by
  intro s hs
  rcases (mem_allSamples_iff _ _).mp hs with ⟨p, hp, hsp⟩
  rw [allPixels_map] at hp
  rcases List.mem_map.mp hp with ⟨q, _, rfl⟩
  rcases hsp with rfl | rfl | rfl
  · exact (hF q).1
  · exact (hF q).2.1
  · exact (hF q).2.2

theorem pixel_le_of_valid {img : PixelBuffer} (h : Valid img) :
    ∀ p ∈ allPixels img, p.r ≤ 255 ∧ p.g ≤ 255 ∧ p.b ≤ 255 := by
  intro p hp
  exact ⟨h _ ((mem_allSamples_iff _ _).mpr ⟨p, hp, Or.inl rfl⟩),
    h _ ((mem_allSamples_iff _ _).mpr ⟨p, hp, Or.inr (Or.inl rfl)⟩),
    h _ ((mem_allSamples_iff _ _).mpr ⟨p, hp, Or.inr (Or.inr rfl)⟩)⟩

theorem pixelMap_eq_self (F : Pixel → Pixel) (img : PixelBuffer)
    (h : ∀ p ∈ allPixels img, F p = p) : img.map (List.map F) = img := by
  induction img with
  | nil => rfl
  | cons row rest ih =>
    rw [allPixels_cons] at h
    rw [List.map_cons,
      ih (fun p hp => h p (List.mem_append_right _ hp))]
    congr 1
    induction row with
    | nil => rfl
    | cons p ps ihr =>
      rw [List.map_cons, h p (List.mem_append_left _ (List.mem_cons_self _ _)),
        ihr (fun q hq => h q (by
          rcases List.mem_append.mp hq with hq' | hq'
          · exact List.mem_append_left _ (List.mem_cons_of_mem _ hq')
          · exact List.mem_append_right _ hq'))]

theorem allSamples_length (img : PixelBuffer) :
    (allSamples img).length = 3 * pixelCount img := by
  rw [allSamples_eq_allPixels, pixelCount_eq_allPixels]
  induction allPixels img with
  | nil => rfl
  | cons p ps ih => simp only [List.foldr_cons, List.length_cons, ih]; omega

theorem channelSamples_length (c : Pixel → ℕ) (region : PixelBuffer) :
    (channelSamples c region).length = pixelCount region := by
  rw [channelSamples_eq_allPixels, List.length_map, pixelCount_eq_allPixels]

theorem quantize_natCast (s : ℕ) (h : s ≤ 255) : quantize (s : ℚ) = s := by
  unfold quantize
  rw [clipQ_of_mem (s : ℚ) (Nat.cast_nonneg s) (by exact_mod_cast h)]
  rw [Int.floor_natCast]
  exact Int.toNat_natCast s

/-- Truncating the clipped scaled samples loses less than 1 per sample:
two-sided bound on the sum. -/
theorem sum_quantize_scaled_bounds (f : ℚ) (hf : 0 ≤ f) (l : List ℕ)
    (h255 : ∀ s ∈ l, (s : ℚ) * f ≤ 255) :
    (((l.map (fun s : ℕ => quantize ((s : ℚ) * f))).sum : ℚ) ≤
        (l.sum : ℚ) * f) ∧
      ((l.sum : ℚ) * f - l.length ≤
        ((l.map (fun s : ℕ => quantize ((s : ℚ) * f))).sum : ℚ)) := by
  induction l with
  | nil => simp
  | cons a t ih =>
    have h255a : (a : ℚ) * f ≤ 255 := h255 a (List.mem_cons_self a t)
    have ht := ih (fun s hs => h255 s (List.mem_cons_of_mem a hs))
    have hq := quantize_bounds ((a : ℚ) * f)
      (mul_nonneg (Nat.cast_nonneg a) hf) h255a
    simp only [List.map_cons, List.sum_cons, List.length_cons, Nat.cast_add,
      Nat.cast_one]
    have hexp : ((a : ℚ) + (t.sum : ℚ)) * f = (a : ℚ) * f + (t.sum : ℚ) * f := by
      ring
    constructor
    · rw [hexp]; linarith [ht.1, hq.1]
    · rw [hexp]; linarith [ht.2, hq.2]

/-- A per-channel map over pixels commutes with extracting that channel's
flattened samples. -/
theorem channelSamples_pixelMap (c : Pixel → ℕ) (F : Pixel → Pixel)
    (u : ℕ → ℕ) (hcu : ∀ p, c (F p) = u (c p)) (img : PixelBuffer) :
    channelSamples c (img.map (List.map F)) = (channelSamples c img).map u := by
  rw [channelSamples_eq_allPixels, allPixels_map, List.map_map,
    channelSamples_eq_allPixels, List.map_map]
  have : c ∘ F = u ∘ c := by funext p; exact hcu p
  rw [this]

-- Store lemmas for the observable-mutation claim.

theorem NpHeap.read_alloc_of_lt (hp : NpHeap) (b : PixelBuffer) (i : ℕ)
    (hi : i < hp.arrays.length) : (hp.alloc b).1.read i = hp.read i := by
  unfold NpHeap.alloc NpHeap.read
  exact List.getD_append _ _ _ _ hi

theorem NpHeap.read_write_ne (hp : NpHeap) (j i : ℕ) (b : PixelBuffer)
    (hij : j ≠ i) : (hp.write j b).read i = hp.read i := by
  unfold NpHeap.write NpHeap.read
  simp [List.getD_eq_getElem?_getD, List.getElem?_set_ne hij]

-- Evaluations of the stages on the concrete buffers (the ℚ instances are
-- not kernel-reducible, so these go through `norm_num`).

theorem balance_ones20_eval : auto_balance_color ones20 = some ones20 := by
  have h : ones20 = [[⟨1, 1, 1⟩], [⟨1, 1, 1⟩], [⟨1, 1, 1⟩], [⟨1, 1, 1⟩],
      [⟨1, 1, 1⟩], [⟨1, 1, 1⟩], [⟨1, 1, 1⟩], [⟨1, 1, 1⟩], [⟨1, 1, 1⟩],
      [⟨1, 1, 1⟩], [⟨1, 1, 1⟩], [⟨1, 1, 1⟩], [⟨1, 1, 1⟩], [⟨1, 1, 1⟩],
      [⟨1, 1, 1⟩], [⟨1, 1, 1⟩], [⟨1, 1, 1⟩], [⟨1, 1, 1⟩], [⟨1, 1, 1⟩],
      [⟨1, 1, 1⟩]] := rfl
  rw [h]
  simp only [auto_balance_color, borderArea, borderHeight, meanRed, meanGreen,
    meanBlue, meanGray, redCorrection, greenCorrection, blueCorrection,
    channelMean, channelSamples, pixelCount, balancePixel, quantize, clipQ,
    List.length_cons, List.length_nil, List.take, List.foldr, List.map,
    List.sum_cons, List.sum_nil]
  norm_num

theorem exposure_ones20_eval :
    auto_adjust_exposure ones20 =
      some (List.replicate 20 [(⟨128, 128, 128⟩ : Pixel)]) := by
  have h : ones20 = [[⟨1, 1, 1⟩], [⟨1, 1, 1⟩], [⟨1, 1, 1⟩], [⟨1, 1, 1⟩],
      [⟨1, 1, 1⟩], [⟨1, 1, 1⟩], [⟨1, 1, 1⟩], [⟨1, 1, 1⟩], [⟨1, 1, 1⟩],
      [⟨1, 1, 1⟩], [⟨1, 1, 1⟩], [⟨1, 1, 1⟩], [⟨1, 1, 1⟩], [⟨1, 1, 1⟩],
      [⟨1, 1, 1⟩], [⟨1, 1, 1⟩], [⟨1, 1, 1⟩], [⟨1, 1, 1⟩], [⟨1, 1, 1⟩],
      [⟨1, 1, 1⟩]] := rfl
  have h2 : (List.replicate 20 [(⟨128, 128, 128⟩ : Pixel)]) =
      [[⟨128, 128, 128⟩], [⟨128, 128, 128⟩], [⟨128, 128, 128⟩],
       [⟨128, 128, 128⟩], [⟨128, 128, 128⟩], [⟨128, 128, 128⟩],
       [⟨128, 128, 128⟩], [⟨128, 128, 128⟩], [⟨128, 128, 128⟩],
       [⟨128, 128, 128⟩], [⟨128, 128, 128⟩], [⟨128, 128, 128⟩],
       [⟨128, 128, 128⟩], [⟨128, 128, 128⟩], [⟨128, 128, 128⟩],
       [⟨128, 128, 128⟩], [⟨128, 128, 128⟩], [⟨128, 128, 128⟩],
       [⟨128, 128, 128⟩], [⟨128, 128, 128⟩]] := rfl
  rw [h, h2]
  simp only [auto_adjust_exposure, meanBrightness, adjustmentFactor,
    exposurePixel, allSamples, pixelCount, quantize, clipQ,
    List.length_cons, List.length_nil, List.foldr, List.map,
    List.sum_cons, List.sum_nil]
  norm_num
  all_goals decide

theorem means_ones20_eval :
    meanRed ones20 = 1 ∧ meanGreen ones20 = 1 ∧ meanBlue ones20 = 1 := by
  refine ⟨?_, ?_, ?_⟩ <;>
    · simp only [meanRed, meanGreen, meanBlue, borderArea, borderHeight,
        ones20, channelMean, channelSamples, pixelCount,
        List.length_replicate, List.replicate, List.take, List.foldr,
        List.map, List.sum_cons, List.sum_nil, List.length_cons,
        List.length_nil]
      norm_num

theorem corrections_ones20_eval :
    redCorrection ones20 = 1 ∧ greenCorrection ones20 = 1 ∧
      blueCorrection ones20 = 1 := by
  refine ⟨?_, ?_, ?_⟩ <;>
    · simp only [redCorrection, greenCorrection, blueCorrection, meanGray,
        means_ones20_eval.1, means_ones20_eval.2.1, means_ones20_eval.2.2]
      norm_num

theorem adjustmentFactor_ones20_eval : adjustmentFactor ones20 = 128 := by
  simp only [adjustmentFactor, meanBrightness, ones20, allSamples, pixelCount,
    List.replicate, List.foldr, List.map, List.sum_cons, List.sum_nil,
    List.length_cons, List.length_nil]
  norm_num

theorem exposure_clipped10_eval :
    auto_adjust_exposure clipped10 = some clipped10Out := by
  simp only [auto_adjust_exposure, meanBrightness, adjustmentFactor,
    exposurePixel, clipped10, clipped10Out, allSamples, pixelCount, quantize,
    clipQ, List.length_cons, List.length_nil, List.foldr, List.map,
    List.sum_cons, List.sum_nil]
  norm_num
  all_goals decide

theorem meanBrightness_clipped10_eval : meanBrightness clipped10 = 20 := by
  simp only [meanBrightness, clipped10, allSamples, pixelCount, List.foldr,
    List.map, List.sum_cons, List.sum_nil, List.length_cons, List.length_nil]
  norm_num

theorem meanBrightness_clipped10Out_eval :
    meanBrightness clipped10Out = 51 / 2 := by
  simp only [meanBrightness, clipped10Out, allSamples, pixelCount, List.foldr,
    List.map, List.sum_cons, List.sum_nil, List.length_cons, List.length_nil]
  norm_num

theorem balance_borderClip20_eval :
    auto_balance_color borderClip20 = some borderClip20Out := by
  have h : borderClip20 = [⟨255, 255, 255⟩, ⟨255, 255, 0⟩, ⟨255, 255, 0⟩] ::
      [[⟨0, 0, 0⟩, ⟨0, 0, 0⟩, ⟨0, 0, 0⟩], [⟨0, 0, 0⟩, ⟨0, 0, 0⟩, ⟨0, 0, 0⟩],
       [⟨0, 0, 0⟩, ⟨0, 0, 0⟩, ⟨0, 0, 0⟩], [⟨0, 0, 0⟩, ⟨0, 0, 0⟩, ⟨0, 0, 0⟩],
       [⟨0, 0, 0⟩, ⟨0, 0, 0⟩, ⟨0, 0, 0⟩], [⟨0, 0, 0⟩, ⟨0, 0, 0⟩, ⟨0, 0, 0⟩],
       [⟨0, 0, 0⟩, ⟨0, 0, 0⟩, ⟨0, 0, 0⟩], [⟨0, 0, 0⟩, ⟨0, 0, 0⟩, ⟨0, 0, 0⟩],
       [⟨0, 0, 0⟩, ⟨0, 0, 0⟩, ⟨0, 0, 0⟩], [⟨0, 0, 0⟩, ⟨0, 0, 0⟩, ⟨0, 0, 0⟩],
       [⟨0, 0, 0⟩, ⟨0, 0, 0⟩, ⟨0, 0, 0⟩], [⟨0, 0, 0⟩, ⟨0, 0, 0⟩, ⟨0, 0, 0⟩],
       [⟨0, 0, 0⟩, ⟨0, 0, 0⟩, ⟨0, 0, 0⟩], [⟨0, 0, 0⟩, ⟨0, 0, 0⟩, ⟨0, 0, 0⟩],
       [⟨0, 0, 0⟩, ⟨0, 0, 0⟩, ⟨0, 0, 0⟩], [⟨0, 0, 0⟩, ⟨0, 0, 0⟩, ⟨0, 0, 0⟩],
       [⟨0, 0, 0⟩, ⟨0, 0, 0⟩, ⟨0, 0, 0⟩], [⟨0, 0, 0⟩, ⟨0, 0, 0⟩, ⟨0, 0, 0⟩],
       [⟨0, 0, 0⟩, ⟨0, 0, 0⟩, ⟨0, 0, 0⟩]] := rfl
  have h2 : borderClip20Out =
      [⟨198, 198, 255⟩, ⟨198, 198, 0⟩, ⟨198, 198, 0⟩] ::
      [[⟨0, 0, 0⟩, ⟨0, 0, 0⟩, ⟨0, 0, 0⟩], [⟨0, 0, 0⟩, ⟨0, 0, 0⟩, ⟨0, 0, 0⟩],
       [⟨0, 0, 0⟩, ⟨0, 0, 0⟩, ⟨0, 0, 0⟩], [⟨0, 0, 0⟩, ⟨0, 0, 0⟩, ⟨0, 0, 0⟩],
       [⟨0, 0, 0⟩, ⟨0, 0, 0⟩, ⟨0, 0, 0⟩], [⟨0, 0, 0⟩, ⟨0, 0, 0⟩, ⟨0, 0, 0⟩],
       [⟨0, 0, 0⟩, ⟨0, 0, 0⟩, ⟨0, 0, 0⟩], [⟨0, 0, 0⟩, ⟨0, 0, 0⟩, ⟨0, 0, 0⟩],
       [⟨0, 0, 0⟩, ⟨0, 0, 0⟩, ⟨0, 0, 0⟩], [⟨0, 0, 0⟩, ⟨0, 0, 0⟩, ⟨0, 0, 0⟩],
       [⟨0, 0, 0⟩, ⟨0, 0, 0⟩, ⟨0, 0, 0⟩], [⟨0, 0, 0⟩, ⟨0, 0, 0⟩, ⟨0, 0, 0⟩],
       [⟨0, 0, 0⟩, ⟨0, 0, 0⟩, ⟨0, 0, 0⟩], [⟨0, 0, 0⟩, ⟨0, 0, 0⟩, ⟨0, 0, 0⟩],
       [⟨0, 0, 0⟩, ⟨0, 0, 0⟩, ⟨0, 0, 0⟩], [⟨0, 0, 0⟩, ⟨0, 0, 0⟩, ⟨0, 0, 0⟩],
       [⟨0, 0, 0⟩, ⟨0, 0, 0⟩, ⟨0, 0, 0⟩], [⟨0, 0, 0⟩, ⟨0, 0, 0⟩, ⟨0, 0, 0⟩],
       [⟨0, 0, 0⟩, ⟨0, 0, 0⟩, ⟨0, 0, 0⟩]] := rfl
  rw [h, h2]
  simp only [auto_balance_color, borderArea, borderHeight, meanRed, meanGreen,
    meanBlue, meanGray, redCorrection, greenCorrection, blueCorrection,
    channelMean, channelSamples, pixelCount, balancePixel, quantize, clipQ,
    List.length_cons, List.length_nil, List.take, List.foldr, List.map,
    List.sum_cons, List.sum_nil]
  norm_num
  all_goals decide

theorem borderMeans_borderClip20Out_eval :
    channelMean Pixel.r (borderArea borderClip20Out) = 198 ∧
      channelMean Pixel.b (borderArea borderClip20Out) = 85 := by
  constructor <;>
    · simp only [borderArea, borderHeight, borderClip20Out, channelMean,
        channelSamples, pixelCount, List.length_cons, List.length_nil,
        List.length_replicate, List.take, List.foldr, List.map,
        List.sum_cons, List.sum_nil]
      norm_num

theorem balance_fracGain20_eval :
    auto_balance_color fracGain20 = some fracGain20Out := by
  have h : fracGain20 = [⟨1, 2, 3⟩] ::
      [[⟨0, 0, 0⟩], [⟨0, 0, 0⟩], [⟨0, 0, 0⟩], [⟨0, 0, 0⟩], [⟨0, 0, 0⟩],
       [⟨0, 0, 0⟩], [⟨0, 0, 0⟩], [⟨0, 0, 0⟩], [⟨0, 0, 0⟩], [⟨0, 0, 0⟩],
       [⟨0, 0, 0⟩], [⟨0, 0, 0⟩], [⟨0, 0, 0⟩], [⟨0, 0, 0⟩], [⟨0, 0, 0⟩],
       [⟨0, 0, 0⟩], [⟨0, 0, 0⟩], [⟨0, 0, 0⟩], [⟨0, 0, 4⟩]] := rfl
  have h2 : fracGain20Out = [⟨2, 2, 2⟩] ::
      [[⟨0, 0, 0⟩], [⟨0, 0, 0⟩], [⟨0, 0, 0⟩], [⟨0, 0, 0⟩], [⟨0, 0, 0⟩],
       [⟨0, 0, 0⟩], [⟨0, 0, 0⟩], [⟨0, 0, 0⟩], [⟨0, 0, 0⟩], [⟨0, 0, 0⟩],
       [⟨0, 0, 0⟩], [⟨0, 0, 0⟩], [⟨0, 0, 0⟩], [⟨0, 0, 0⟩], [⟨0, 0, 0⟩],
       [⟨0, 0, 0⟩], [⟨0, 0, 0⟩], [⟨0, 0, 0⟩], [⟨0, 0, 2⟩]] := rfl
  rw [h, h2]
  simp only [auto_balance_color, borderArea, borderHeight, meanRed, meanGreen,
    meanBlue, meanGray, redCorrection, greenCorrection, blueCorrection,
    channelMean, channelSamples, pixelCount, balancePixel, quantize, clipQ,
    List.length_cons, List.length_nil, List.take, List.foldr, List.map,
    List.sum_cons, List.sum_nil]
  norm_num
  all_goals decide

theorem balance_rounded_fracGain20_eval :
    auto_balance_color_rounded fracGain20 = some fracGain20RoundOut := by
  have h : fracGain20 = [⟨1, 2, 3⟩] ::
      [[⟨0, 0, 0⟩], [⟨0, 0, 0⟩], [⟨0, 0, 0⟩], [⟨0, 0, 0⟩], [⟨0, 0, 0⟩],
       [⟨0, 0, 0⟩], [⟨0, 0, 0⟩], [⟨0, 0, 0⟩], [⟨0, 0, 0⟩], [⟨0, 0, 0⟩],
       [⟨0, 0, 0⟩], [⟨0, 0, 0⟩], [⟨0, 0, 0⟩], [⟨0, 0, 0⟩], [⟨0, 0, 0⟩],
       [⟨0, 0, 0⟩], [⟨0, 0, 0⟩], [⟨0, 0, 0⟩], [⟨0, 0, 4⟩]] := rfl
  have h2 : fracGain20RoundOut = [⟨2, 2, 2⟩] ::
      [[⟨0, 0, 0⟩], [⟨0, 0, 0⟩], [⟨0, 0, 0⟩], [⟨0, 0, 0⟩], [⟨0, 0, 0⟩],
       [⟨0, 0, 0⟩], [⟨0, 0, 0⟩], [⟨0, 0, 0⟩], [⟨0, 0, 0⟩], [⟨0, 0, 0⟩],
       [⟨0, 0, 0⟩], [⟨0, 0, 0⟩], [⟨0, 0, 0⟩], [⟨0, 0, 0⟩], [⟨0, 0, 0⟩],
       [⟨0, 0, 0⟩], [⟨0, 0, 0⟩], [⟨0, 0, 0⟩], [⟨0, 0, 3⟩]] := rfl
  rw [h, h2]
  simp only [auto_balance_color_rounded, borderArea, borderHeight, meanRed,
    meanGreen, meanBlue, meanGray, redCorrection, greenCorrection,
    blueCorrection, channelMean, channelSamples, pixelCount,
    balancePixelRound, quantizeRound, clipQ, round_eq,
    List.length_cons, List.length_nil, List.take, List.foldr, List.map,
    List.sum_cons, List.sum_nil]
  norm_num
  all_goals decide

/-- C4, claim as stated: the inverter maps every sample `s` to `255 - s`,
and on valid (uint8-range) buffers it is an exact involution with no
clamping loss. -/
theorem invert_negative_involution (img : PixelBuffer) (h : Valid img) :
    allSamples (invert_negative img) =
        (allSamples img).map (fun s => 255 - s) ∧
      invert_negative (invert_negative img) = img := by
  refine ⟨mem_allSamples_map (fun s => 255 - s) img, ?_⟩
  unfold invert_negative
  rw [List.map_map]
  have hcomp : (List.map (fun p : Pixel => Pixel.mk (255 - p.r) (255 - p.g)
        (255 - p.b))) ∘ (List.map (fun p : Pixel => Pixel.mk (255 - p.r)
        (255 - p.g) (255 - p.b))) =
      List.map ((fun p : Pixel => Pixel.mk (255 - p.r) (255 - p.g)
        (255 - p.b)) ∘ (fun p : Pixel => Pixel.mk (255 - p.r) (255 - p.g)
        (255 - p.b))) := by
    funext l
    simp [List.map_map]
  rw [hcomp]
  apply pixelMap_eq_self
  intro p hp
  rcases pixel_le_of_valid h p hp with ⟨hr, hg, hb⟩
  simp only [Function.comp]
  cases p with
  | mk r g b =>
    simp only [Pixel.mk.injEq]
    exact ⟨Nat.sub_sub_self hr, Nat.sub_sub_self hg, Nat.sub_sub_self hb⟩

/-- C4 witness: a concrete valid buffer round-trips exactly. -/
theorem invert_negative_involution_witness :
    Valid [[⟨0, 10, 255⟩], [⟨1, 2, 3⟩]] ∧
      (allSamples (invert_negative [[⟨0, 10, 255⟩], [⟨1, 2, 3⟩]]) =
          (allSamples [[(⟨0, 10, 255⟩ : Pixel)], [⟨1, 2, 3⟩]]).map
            (fun s => 255 - s) ∧
        invert_negative (invert_negative [[⟨0, 10, 255⟩], [⟨1, 2, 3⟩]]) =
          [[⟨0, 10, 255⟩], [⟨1, 2, 3⟩]]) :=
  ⟨by decide, invert_negative_involution _ (by decide)⟩

/-- C3: the range invariant.  Inverted buffers stay in [0,255] (uint8
complement), and whenever the color balancer or the exposure normalizer
completes with a buffer (the NaN-free path), every sample of that buffer
lies in [0,255], including for adversarial inputs whose scaled values
exceed 255 before `np.clip`. -/
theorem stages_range_invariant (img : PixelBuffer) :
    InRange (invert_negative img) ∧
      (∀ out, auto_balance_color img = some out → InRange out) ∧
      (∀ out, auto_adjust_exposure img = some out → InRange out) := by
  refine ⟨?_, ?_, ?_⟩
  · exact inRange_pixelMap _ (fun p => ⟨Nat.sub_le _ _, Nat.sub_le _ _,
      Nat.sub_le _ _⟩) img
  · intro out h
    rcases auto_balance_color_some h with ⟨-, -, -, -, rfl⟩
    exact inRange_pixelMap _ (fun p => ⟨quantize_le_255 _, quantize_le_255 _,
      quantize_le_255 _⟩) img
  · intro out h
    rcases auto_adjust_exposure_some h with ⟨-, -, rfl⟩
    exact inRange_pixelMap _ (fun p => ⟨quantize_le_255 _, quantize_le_255 _,
      quantize_le_255 _⟩) img

/-- C3 witness: on a concrete 20×1 buffer both fallible stages complete and
all three range facts hold at their concrete outputs. -/
theorem stages_range_invariant_witness :
    InRange (invert_negative ones20) ∧ InRange ones20 ∧
      InRange (List.replicate 20 [(⟨128, 128, 128⟩ : Pixel)]) :=
  ⟨(stages_range_invariant ones20).1,
   (stages_range_invariant ones20).2.1 _ balance_ones20_eval,
   (stages_range_invariant ones20).2.2 _ exposure_ones20_eval⟩

theorem borderArea_pixelMap (F : Pixel → Pixel) (img : PixelBuffer) :
    borderArea (img.map (List.map F)) = (borderArea img).map (List.map F) := by
  unfold borderArea
  rw [List.length_map]
  exact (List.map_take _ _ _).symm

/-- C1 (code bug): on the all-black buffer every border channel mean and
the mean brightness are 0, and both stages take the unguarded NaN/Inf
division path (modelled `none`).  The Python code raises no
`DegenerateChannelError` — no such exception class exists anywhere in
AFP.py — it computes `0/0` gains (NaN) resp. a `128/0` factor (Inf) with
only a RuntimeWarning and casts the resulting NaN samples into the uint8
output. -/
theorem all_black_degenerate_no_exception :
    meanRed allBlack20 = 0 ∧ meanGreen allBlack20 = 0 ∧
      meanBlue allBlack20 = 0 ∧ meanBrightness allBlack20 = 0 ∧
      auto_balance_color allBlack20 = none ∧
      auto_adjust_exposure allBlack20 = none := by
  have h : allBlack20 = [[⟨0, 0, 0⟩], [⟨0, 0, 0⟩], [⟨0, 0, 0⟩], [⟨0, 0, 0⟩],
      [⟨0, 0, 0⟩], [⟨0, 0, 0⟩], [⟨0, 0, 0⟩], [⟨0, 0, 0⟩], [⟨0, 0, 0⟩],
      [⟨0, 0, 0⟩], [⟨0, 0, 0⟩], [⟨0, 0, 0⟩], [⟨0, 0, 0⟩], [⟨0, 0, 0⟩],
      [⟨0, 0, 0⟩], [⟨0, 0, 0⟩], [⟨0, 0, 0⟩], [⟨0, 0, 0⟩], [⟨0, 0, 0⟩],
      [⟨0, 0, 0⟩]] := rfl
  rw [h]
  refine ⟨?_, ?_, ?_, ?_, ?_, ?_⟩ <;>
    · simp only [auto_balance_color, auto_adjust_exposure, meanRed, meanGreen,
        meanBlue, meanBrightness, borderArea, borderHeight, channelMean,
        channelSamples, adjustmentFactor, pixelCount, allSamples,
        List.length_cons, List.length_nil, List.take, List.foldr, List.map,
        List.sum_cons, List.sum_nil]
      norm_num

/-- C2 (code bug): at height 10 the computed border height is 0, the
border slice is empty, and the balancer takes the NaN path (modelled
`none`).  The Python code has no `InvalidInputError` — it calls `np.mean`
on the empty slice, which yields NaN with a RuntimeWarning instead of
raising, and proceeds. -/
theorem zero_border_no_exception :
    borderHeight short10.length = 0 ∧ pixelCount (borderArea short10) = 0 ∧
      auto_balance_color short10 = none := by
  refine ⟨by decide, by decide, by decide⟩

/-- C5 counterexample: `clipped10` has nonzero mean brightness 20, the
normalizer completes, yet clipping of its one bright pixel leaves the
output mean at 51/2 = 25.5, off the 128 target by 102.5 — far outside any
rounding tolerance. -/
theorem exposure_mean_target_counterexample :
    auto_adjust_exposure clipped10 = some clipped10Out ∧
      meanBrightness clipped10 ≠ 0 ∧
      1 < |meanBrightness clipped10Out - 128| := by
  refine ⟨exposure_clipped10_eval, ?_, ?_⟩
  · rw [meanBrightness_clipped10_eval]; norm_num
  · rw [meanBrightness_clipped10Out_eval]
    rw [abs_of_nonpos (by norm_num)]
    norm_num

/-- C5 (amended): for buffers with nonzero mean brightness on which no
scaled sample exceeds 255 (so `np.clip` never saturates), the
post-normalization mean brightness is within 1 of the 128 target
(in [127, 128]; the shortfall is uint8 truncation).  On buffers where
clipping saturates some sample the mean can fall arbitrarily far below
128, as the counterexample shows. -/
theorem exposure_mean_near_target (img out : PixelBuffer)
    (h : auto_adjust_exposure img = some out)
    (hnoclip : ∀ s ∈ allSamples img, (s : ℚ) * adjustmentFactor img ≤ 255) :
    127 ≤ meanBrightness out ∧ meanBrightness out ≤ 128 := by
  obtain ⟨hn, hm, rfl⟩ := auto_adjust_exposure_some h
  have hmap : allSamples (img.map (List.map (exposurePixel img))) =
      (allSamples img).map
        (fun s : ℕ => quantize ((s : ℚ) * adjustmentFactor img)) :=
    mem_allSamples_map (fun s : ℕ => quantize ((s : ℚ) * adjustmentFactor img))
      img
  have hL : ((allSamples img).length : ℚ) = 3 * (pixelCount img : ℚ) := by
    rw [allSamples_length]; push_cast; ring
  have hLpos : (0 : ℚ) < 3 * (pixelCount img : ℚ) := by
    have h1 : (0 : ℚ) < (pixelCount img : ℚ) := by
      exact_mod_cast Nat.pos_of_ne_zero hn
    linarith
  have hmB : meanBrightness img =
      ((allSamples img).sum : ℚ) / (3 * (pixelCount img : ℚ)) := rfl
  have hmB_pos : 0 < meanBrightness img := by
    rcases lt_or_eq_of_le (by rw [hmB]; positivity :
      (0 : ℚ) ≤ meanBrightness img) with h' | h'
    · exact h'
    · exact absurd h'.symm hm
  have hf_pos : 0 < adjustmentFactor img := by
    unfold adjustmentFactor
    exact div_pos (by norm_num) hmB_pos
  have hSne : ((allSamples img).sum : ℚ) ≠ 0 := by
    intro h0
    apply hm
    rw [hmB, h0, zero_div]
  have hkey : ((allSamples img).sum : ℚ) * adjustmentFactor img =
      128 * ((allSamples img).length : ℚ) := by
    unfold adjustmentFactor meanBrightness
    rw [hL, div_div_eq_mul_div,
      mul_comm ((allSamples img).sum : ℚ) (128 * (3 * (pixelCount img : ℚ)) /
        ((allSamples img).sum : ℚ)),
      div_mul_cancel₀ _ hSne]
  have hbounds := sum_quantize_scaled_bounds (adjustmentFactor img)
    (le_of_lt hf_pos) (allSamples img) hnoclip
  have hout : meanBrightness (img.map (List.map (exposurePixel img))) =
      (((allSamples img).map
          (fun s : ℕ => quantize ((s : ℚ) * adjustmentFactor img))).sum : ℚ) /
        (3 * (pixelCount img : ℚ)) := by
    unfold meanBrightness
    rw [hmap, pixelCount_map]
  rw [hout]
  have h1 := hbounds.1
  have h2 := hbounds.2
  rw [hkey] at h1 h2
  rw [hL] at h1 h2
  constructor
  · rw [le_div_iff₀ hLpos]
    linarith
  · rw [div_le_iff₀ hLpos]
    linarith

/-- C5 witness: the all-ones buffer normalizes with factor 128 and no
clipping; its output mean is exactly 128. -/
theorem exposure_mean_near_target_witness :
    auto_adjust_exposure ones20 =
        some (List.replicate 20 [(⟨128, 128, 128⟩ : Pixel)]) ∧
      127 ≤ meanBrightness (List.replicate 20 [(⟨128, 128, 128⟩ : Pixel)]) ∧
      meanBrightness (List.replicate 20 [(⟨128, 128, 128⟩ : Pixel)]) ≤ 128 :=
  ⟨exposure_ones20_eval,
   exposure_mean_near_target ones20 _ exposure_ones20_eval (by
    intro s hs
    have hall : allSamples ones20 = List.replicate 60 1 := rfl
    rw [hall] at hs
    rw [List.eq_of_mem_replicate hs, adjustmentFactor_ones20_eval]
    norm_num)⟩

/-- Core estimate for the balancer: a channel whose border samples never
saturate under its gain ends with a border mean in [meanGray - 1, meanGray]
(the gain drives the mean to meanGray exactly; truncation loses < 1). -/
theorem balance_channel_mean_bounds (img : PixelBuffer) (c : Pixel → ℕ)
    (corr : ℚ)
    (hmean_ne : channelMean c (borderArea img) ≠ 0)
    (hcorr : corr = meanGray img / channelMean c (borderArea img))
    (hgray_pos : 0 < meanGray img)
    (hn : pixelCount (borderArea img) ≠ 0)
    (hnoclip : ∀ s ∈ channelSamples c (borderArea img), (s : ℚ) * corr ≤ 255)
    (hmap : channelSamples c
        (borderArea (img.map (List.map (balancePixel img)))) =
      (channelSamples c (borderArea img)).map
        (fun s : ℕ => quantize ((s : ℚ) * corr))) :
    meanGray img - 1 ≤
        channelMean c (borderArea (img.map (List.map (balancePixel img)))) ∧
      channelMean c (borderArea (img.map (List.map (balancePixel img)))) ≤
        meanGray img := by
  have hmean_nonneg : (0 : ℚ) ≤ channelMean c (borderArea img) := by
    unfold channelMean; positivity
  have hmean_pos : 0 < channelMean c (borderArea img) :=
    lt_of_le_of_ne hmean_nonneg (Ne.symm hmean_ne)
  have hcorr_nonneg : 0 ≤ corr := by
    rw [hcorr]; exact le_of_lt (div_pos hgray_pos hmean_pos)
  have hbounds := sum_quantize_scaled_bounds corr hcorr_nonneg
    (channelSamples c (borderArea img)) hnoclip
  have hlen : ((channelSamples c (borderArea img)).length : ℚ) =
      (pixelCount (borderArea img) : ℚ) := by
    rw [channelSamples_length]
  have hnpos : (0 : ℚ) < (pixelCount (borderArea img) : ℚ) := by
    exact_mod_cast Nat.pos_of_ne_zero hn
  have hSne : ((channelSamples c (borderArea img)).sum : ℚ) ≠ 0 := by
    intro h0
    apply hmean_ne
    unfold channelMean
    rw [h0, zero_div]
  have hkey : ((channelSamples c (borderArea img)).sum : ℚ) * corr =
      (pixelCount (borderArea img) : ℚ) * meanGray img := by
    rw [hcorr]
    unfold channelMean
    rw [div_div_eq_mul_div,
      mul_comm ((channelSamples c (borderArea img)).sum : ℚ)
        (meanGray img * (pixelCount (borderArea img) : ℚ) /
          ((channelSamples c (borderArea img)).sum : ℚ)),
      div_mul_cancel₀ _ hSne, mul_comm]
  have hmean' : channelMean c (borderArea (img.map (List.map (balancePixel img)))) =
      (((channelSamples c (borderArea img)).map
          (fun s : ℕ => quantize ((s : ℚ) * corr))).sum : ℚ) /
        (pixelCount (borderArea img) : ℚ) := by
    unfold channelMean
    rw [hmap, borderArea_pixelMap, pixelCount_map]
  rw [hmean']
  have h1 := hbounds.1
  have h2 := hbounds.2
  rw [hkey] at h1 h2
  rw [hlen] at h2
  constructor
  · rw [le_div_iff₀ hnpos]
    have hx : (meanGray img - 1) * (pixelCount (borderArea img) : ℚ) =
        (pixelCount (borderArea img) : ℚ) * meanGray img -
          (pixelCount (borderArea img) : ℚ) := by ring
    rw [hx]
    linarith
  · rw [div_le_iff₀ hnpos]
    have hx : meanGray img * (pixelCount (borderArea img) : ℚ) =
        (pixelCount (borderArea img) : ℚ) * meanGray img := by ring
    rw [hx]
    linarith

/-- C6 (amended): whenever the balancer completes and no border sample
saturates under its channel gain, the three border channel means of the
output agree within ±1 (each lies in [meanGray - 1, meanGray]).  When a
border sample does saturate under `np.clip`, the means can split wide
apart, as the counterexample shows. -/
theorem balance_border_means_close (img out : PixelBuffer)
    (h : auto_balance_color img = some out)
    (hncr : ∀ s ∈ channelSamples Pixel.r (borderArea img),
      (s : ℚ) * redCorrection img ≤ 255)
    (hncg : ∀ s ∈ channelSamples Pixel.g (borderArea img),
      (s : ℚ) * greenCorrection img ≤ 255)
    (hncb : ∀ s ∈ channelSamples Pixel.b (borderArea img),
      (s : ℚ) * blueCorrection img ≤ 255) :
    |channelMean Pixel.r (borderArea out) -
        channelMean Pixel.g (borderArea out)| ≤ 1 ∧
      |channelMean Pixel.r (borderArea out) -
        channelMean Pixel.b (borderArea out)| ≤ 1 ∧
      |channelMean Pixel.g (borderArea out) -
        channelMean Pixel.b (borderArea out)| ≤ 1 := by
  obtain ⟨hn, hr0, hg0, hb0, rfl⟩ := auto_balance_color_some h
  have hr_pos : 0 < meanRed img := by
    refine lt_of_le_of_ne ?_ (Ne.symm hr0)
    unfold meanRed channelMean; positivity
  have hg_pos : 0 < meanGreen img := by
    refine lt_of_le_of_ne ?_ (Ne.symm hg0)
    unfold meanGreen channelMean; positivity
  have hb_pos : 0 < meanBlue img := by
    refine lt_of_le_of_ne ?_ (Ne.symm hb0)
    unfold meanBlue channelMean; positivity
  have hgray_pos : 0 < meanGray img := by
    unfold meanGray
    have hsum : 0 < meanRed img + meanGreen img + meanBlue img := by linarith
    exact div_pos hsum (by norm_num)
  have hbr := balance_channel_mean_bounds img Pixel.r (redCorrection img)
    hr0 rfl hgray_pos hn hncr
    (by rw [borderArea_pixelMap]
        exact channelSamples_pixelMap Pixel.r (balancePixel img) _
          (fun p => rfl) (borderArea img))
  have hbg := balance_channel_mean_bounds img Pixel.g (greenCorrection img)
    hg0 rfl hgray_pos hn hncg
    (by rw [borderArea_pixelMap]
        exact channelSamples_pixelMap Pixel.g (balancePixel img) _
          (fun p => rfl) (borderArea img))
  have hbb := balance_channel_mean_bounds img Pixel.b (blueCorrection img)
    hb0 rfl hgray_pos hn hncb
    (by rw [borderArea_pixelMap]
        exact channelSamples_pixelMap Pixel.b (balancePixel img) _
          (fun p => rfl) (borderArea img))
  refine ⟨abs_sub_le_iff.mpr ⟨?_, ?_⟩, abs_sub_le_iff.mpr ⟨?_, ?_⟩,
    abs_sub_le_iff.mpr ⟨?_, ?_⟩⟩ <;>
    [skip; skip; skip; skip; skip; skip] <;>
    [linarith [hbr.1, hbr.2, hbg.1, hbg.2];
     linarith [hbr.1, hbr.2, hbg.1, hbg.2];
     linarith [hbr.1, hbr.2, hbb.1, hbb.2];
     linarith [hbr.1, hbr.2, hbb.1, hbb.2];
     linarith [hbg.1, hbg.2, hbb.1, hbb.2];
     linarith [hbg.1, hbg.2, hbb.1, hbb.2]]

/-- C6 counterexample: on `borderClip20` the balancer completes, but the
saturated blue border sample leaves border means red = 198 and blue = 85,
113 apart — far outside the ±1 tolerance. -/
theorem balance_border_means_counterexample :
    auto_balance_color borderClip20 = some borderClip20Out ∧
      1 < |channelMean Pixel.r (borderArea borderClip20Out) -
        channelMean Pixel.b (borderArea borderClip20Out)| := by
  refine ⟨balance_borderClip20_eval, ?_⟩
  rw [borderMeans_borderClip20Out_eval.1, borderMeans_borderClip20Out_eval.2]
  rw [abs_of_nonneg (by norm_num)]
  norm_num

/-- C6 witness: on the all-ones buffer the balancer is gain-1 everywhere,
no border sample saturates, and the output border means coincide. -/
theorem balance_border_means_close_witness :
    auto_balance_color ones20 = some ones20 ∧
      (|channelMean Pixel.r (borderArea ones20) -
          channelMean Pixel.g (borderArea ones20)| ≤ 1 ∧
        |channelMean Pixel.r (borderArea ones20) -
          channelMean Pixel.b (borderArea ones20)| ≤ 1 ∧
        |channelMean Pixel.g (borderArea ones20) -
          channelMean Pixel.b (borderArea ones20)| ≤ 1) :=
  ⟨balance_ones20_eval,
   balance_border_means_close ones20 ones20 balance_ones20_eval
    (by
      intro s hs
      have he : channelSamples Pixel.r (borderArea ones20) = [1] := rfl
      rw [he] at hs
      simp only [List.mem_singleton] at hs
      rw [hs, corrections_ones20_eval.1]
      norm_num)
    (by
      intro s hs
      have he : channelSamples Pixel.g (borderArea ones20) = [1] := rfl
      rw [he] at hs
      simp only [List.mem_singleton] at hs
      rw [hs, corrections_ones20_eval.2.1]
      norm_num)
    (by
      intro s hs
      have he : channelSamples Pixel.b (borderArea ones20) = [1] := rfl
      rw [he] at hs
      simp only [List.mem_singleton] at hs
      rw [hs, corrections_ones20_eval.2.2]
      norm_num)⟩

/-- C7 counterexample: the balancer does not round to nearest.  On
`fracGain20` the blue gain is 2/3, the body sample 4 scales to 8/3, and
the code stores 2 (truncation) where round-to-nearest stores 3, so the
code's output differs from the spec-described rounded balancer. -/
theorem balance_rounding_counterexample :
    auto_balance_color fracGain20 ≠ auto_balance_color_rounded fracGain20 ∧
      auto_balance_color fracGain20 = some fracGain20Out ∧
      auto_balance_color_rounded fracGain20 = some fracGain20RoundOut := by
  refine ⟨?_, balance_fracGain20_eval, balance_rounded_fracGain20_eval⟩
  rw [balance_fracGain20_eval, balance_rounded_fracGain20_eval]
  intro hcon
  exact absurd (Option.some.inj hcon) (by decide)

/-- C7 (amended): applying the gains, the balancer multiplies every sample
of each channel by that channel's gain, clamps to [0,255], and then
truncates toward zero (floor) — the uint8 slice-assignment cast — rather
than rounding to the nearest integer. -/
theorem balance_clamps_then_truncates (img out : PixelBuffer)
    (h : auto_balance_color img = some out) :
    channelSamples Pixel.r out = (channelSamples Pixel.r img).map
        (fun s : ℕ =>
          (Int.floor (min 255 (max 0 ((s : ℚ) * redCorrection img)))).toNat) ∧
      channelSamples Pixel.g out = (channelSamples Pixel.g img).map
        (fun s : ℕ =>
          (Int.floor (min 255 (max 0 ((s : ℚ) * greenCorrection img)))).toNat) ∧
      channelSamples Pixel.b out = (channelSamples Pixel.b img).map
        (fun s : ℕ =>
          (Int.floor (min 255 (max 0 ((s : ℚ) * blueCorrection img)))).toNat) := by
  obtain ⟨-, -, -, -, rfl⟩ := auto_balance_color_some h
  exact ⟨channelSamples_pixelMap Pixel.r (balancePixel img) _ (fun p => rfl) img,
    channelSamples_pixelMap Pixel.g (balancePixel img) _ (fun p => rfl) img,
    channelSamples_pixelMap Pixel.b (balancePixel img) _ (fun p => rfl) img⟩

/-- C7 witness: the clamp-then-truncate characterization instantiated on
the all-ones buffer. -/
theorem balance_clamps_then_truncates_witness :
    auto_balance_color ones20 = some ones20 ∧
      (channelSamples Pixel.r ones20 = (channelSamples Pixel.r ones20).map
          (fun s : ℕ =>
            (Int.floor (min 255 (max 0 ((s : ℚ) * redCorrection ones20)))).toNat) ∧
        channelSamples Pixel.g ones20 = (channelSamples Pixel.g ones20).map
          (fun s : ℕ =>
            (Int.floor (min 255 (max 0 ((s : ℚ) * greenCorrection ones20)))).toNat) ∧
        channelSamples Pixel.b ones20 = (channelSamples Pixel.b ones20).map
          (fun s : ℕ =>
            (Int.floor (min 255 (max 0 ((s : ℚ) * blueCorrection ones20)))).toNat)) :=
  ⟨balance_ones20_eval,
   balance_clamps_then_truncates ones20 ones20 balance_ones20_eval⟩

/-- C8 (amended): each file of the batch yields exactly one event in
order; a failing file yields its own warning dialog and does not prevent
later files from being processed and saved; the terminal event is always
the fixed completion dialog of AFP.py line 202 — a constant message, not
a count of succeeded and failed images. -/
theorem batch_continue_on_error (files : List BatchFile) :
    batch_process_images files =
        files.map batchStep ++ [BatchEvent.info finalMessage] ∧
      (∀ f ∈ files, f.decoded = none →
        BatchEvent.warning f.name ∈ batch_process_images files) ∧
      (∀ f ∈ files, f.decoded ≠ none →
        BatchEvent.saved f.name ∈ batch_process_images files) ∧
      (batch_process_images files).getLast? =
        some (BatchEvent.info finalMessage) := by
  have hloop : ∀ fs : List BatchFile, batchLoop fs = fs.map batchStep := by
    intro fs
    induction fs with
    | nil => rfl
    | cons f rest ih => simp [batchLoop, ih]
  refine ⟨?_, ?_, ?_, ?_⟩
  · unfold batch_process_images
    rw [hloop]
  · intro f hf hdec
    unfold batch_process_images
    rw [hloop]
    apply List.mem_append_left
    have hstep : batchStep f = BatchEvent.warning f.name := by
      unfold batchStep
      rw [hdec]
    have hm := List.mem_map_of_mem batchStep hf
    rw [hstep] at hm
    exact hm
  · intro f hf hdec
    unfold batch_process_images
    rw [hloop]
    apply List.mem_append_left
    have hstep : batchStep f = BatchEvent.saved f.name := by
      unfold batchStep
      cases hd : f.decoded with
      | none => exact absurd hd hdec
      | some img => rfl
    have hm := List.mem_map_of_mem batchStep hf
    rw [hstep] at hm
    exact hm
  · unfold batch_process_images
    exact List.getLast?_concat _

/-- C8 counterexample: the terminal dialog is the same fixed
"all images processed and saved successfully" message whether the batch
had a failure (one corrupt file, zero successes) or none (two successes)
— it reports no success/failure counts. -/
theorem batch_summary_counterexample :
    (batch_process_images [corruptFile]).getLast? =
        some (BatchEvent.info finalMessage) ∧
      (batch_process_images [okFile, okFile]).getLast? =
        some (BatchEvent.info finalMessage) ∧
      BatchEvent.warning "corrupt.png" ∈ batch_process_images [corruptFile] := by
  refine ⟨rfl, rfl, ?_⟩
  simp [batch_process_images, batchLoop, batchStep, corruptFile]

/-- C8 witness: a mixed batch — the good file is saved, the corrupt one
gets its warning, and the terminal dialog still claims success. -/
theorem batch_continue_on_error_witness :
    BatchEvent.warning "corrupt.png" ∈
        batch_process_images [okFile, corruptFile] ∧
      BatchEvent.saved "ok.png" ∈ batch_process_images [okFile, corruptFile] ∧
      (batch_process_images [okFile, corruptFile]).getLast? =
        some (BatchEvent.info finalMessage) :=
  ⟨(batch_continue_on_error [okFile, corruptFile]).2.1 corruptFile
    (List.mem_cons_of_mem okFile (List.mem_cons_self corruptFile [])) rfl,
   (batch_continue_on_error [okFile, corruptFile]).2.2.1 okFile
    (List.mem_cons_self okFile [corruptFile]) (Option.some_ne_none _),
   (batch_continue_on_error [okFile, corruptFile]).2.2.2⟩

/-- C9: no stage mutates its input array as observed through the store.
The inverter and the exposure normalizer only allocate; the balancer
copies the input (`image_array.copy()`, AFP.py line 30) and its three
slice assignments (lines 31-33) write only to the fresh copy.  After each
stage, the input id still dereferences to the original buffer, and the
returned id is distinct from the input id. -/
theorem stages_no_input_mutation (hp : NpHeap) (imgId : ℕ)
    (hid : imgId < hp.arrays.length) :
    ((invert_negative_st hp imgId).1.read imgId = hp.read imgId ∧
        (invert_negative_st hp imgId).2 ≠ imgId) ∧
      ((auto_balance_color_st hp imgId).1.read imgId = hp.read imgId ∧
        ∀ oid, (auto_balance_color_st hp imgId).2 = some oid → oid ≠ imgId) ∧
      ((auto_adjust_exposure_st hp imgId).1.read imgId = hp.read imgId ∧
        ∀ oid, (auto_adjust_exposure_st hp imgId).2 = some oid → oid ≠ imgId) := by
  have hne : hp.arrays.length ≠ imgId := ne_of_gt hid
  refine ⟨⟨?_, ?_⟩, ⟨?_, ?_⟩, ⟨?_, ?_⟩⟩
  · unfold invert_negative_st
    exact NpHeap.read_alloc_of_lt hp _ imgId hid
  · unfold invert_negative_st NpHeap.alloc
    exact hne
  · unfold auto_balance_color_st
    dsimp only [NpHeap.alloc]
    split_ifs
    · rfl
    · rfl
    · rw [NpHeap.read_write_ne _ _ _ _ hne, NpHeap.read_write_ne _ _ _ _ hne,
        NpHeap.read_write_ne _ _ _ _ hne]
      exact NpHeap.read_alloc_of_lt hp _ imgId hid
  · unfold auto_balance_color_st
    dsimp only [NpHeap.alloc]
    split_ifs
    · intro oid hoid
      simp at hoid
    · intro oid hoid
      simp at hoid
    · intro oid hoid
      have hoid' : oid = hp.arrays.length := (Option.some.inj hoid).symm
      rw [hoid']
      exact hne
  · unfold auto_adjust_exposure_st
    dsimp only [NpHeap.alloc]
    split_ifs
    · rfl
    · rfl
    · exact NpHeap.read_alloc_of_lt hp _ imgId hid
  · unfold auto_adjust_exposure_st
    dsimp only [NpHeap.alloc]
    split_ifs
    · intro oid hoid
      simp at hoid
    · intro oid hoid
      simp at hoid
    · intro oid hoid
      have hoid' : oid = hp.arrays.length := (Option.some.inj hoid).symm
      rw [hoid']
      exact hne

/-- C9 witness: on a one-array store, each stage leaves the stored input
buffer intact at id 0. -/
theorem stages_no_input_mutation_witness :
    0 < heap0.arrays.length ∧
      (invert_negative_st heap0 0).1.read 0 = heap0.read 0 ∧
      (auto_balance_color_st heap0 0).1.read 0 = heap0.read 0 ∧
      (auto_adjust_exposure_st heap0 0).1.read 0 = heap0.read 0 :=
  ⟨by decide,
   (stages_no_input_mutation heap0 0 (by decide)).1.1,
   (stages_no_input_mutation heap0 0 (by decide)).2.1.1,
   (stages_no_input_mutation heap0 0 (by decide)).2.2.1⟩

/-- C10: when the border region is nonempty and its three channel means
are equal and nonzero, all three gains are exactly 1 and the balancer
returns the input buffer unchanged, sample for sample. -/
theorem balance_identity_when_border_neutral (img : PixelBuffer)
    (hv : Valid img) (hn : pixelCount (borderArea img) ≠ 0)
    (hrg : meanRed img = meanGreen img) (hgb : meanGreen img = meanBlue img)
    (hnz : meanRed img ≠ 0) :
    redCorrection img = 1 ∧ greenCorrection img = 1 ∧
      blueCorrection img = 1 ∧ auto_balance_color img = some img := by
  have hg0 : meanGreen img ≠ 0 := by rw [← hrg]; exact hnz
  have hb0 : meanBlue img ≠ 0 := by rw [← hgb]; exact hg0
  have hgray : meanGray img = meanRed img := by
    unfold meanGray
    rw [← hgb, ← hrg]
    ring
  have hcr : redCorrection img = 1 := by
    unfold redCorrection
    rw [hgray]
    exact div_self hnz
  have hcg : greenCorrection img = 1 := by
    unfold greenCorrection
    rw [hgray, hrg]
    exact div_self hg0
  have hcb : blueCorrection img = 1 := by
    unfold blueCorrection
    rw [hgray, hrg, hgb]
    exact div_self hb0
  refine ⟨hcr, hcg, hcb, ?_⟩
  unfold auto_balance_color
  rw [if_neg hn, if_neg (by push_neg; exact ⟨hnz, hg0, hb0⟩)]
  congr 1
  apply pixelMap_eq_self
  intro p hp
  obtain ⟨h1, h2, h3⟩ := pixel_le_of_valid hv p hp
  unfold balancePixel
  rw [hcr, hcg, hcb]
  simp only [mul_one]
  cases p with
  | mk r g b =>
    simp only [Pixel.mk.injEq]
    exact ⟨quantize_natCast r h1, quantize_natCast g h2, quantize_natCast b h3⟩

/-- C10 witness: the all-ones buffer has a one-pixel border with equal
nonzero channel means; the balancer is the identity on it. -/
theorem balance_identity_witness :
    Valid ones20 ∧ pixelCount (borderArea ones20) ≠ 0 ∧
      meanRed ones20 = meanGreen ones20 ∧
      meanGreen ones20 = meanBlue ones20 ∧ meanRed ones20 ≠ 0 ∧
      (redCorrection ones20 = 1 ∧ greenCorrection ones20 = 1 ∧
        blueCorrection ones20 = 1 ∧ auto_balance_color ones20 = some ones20) :=
  ⟨by decide, by decide,
   by rw [means_ones20_eval.1, means_ones20_eval.2.1],
   by rw [means_ones20_eval.2.1, means_ones20_eval.2.2],
   by rw [means_ones20_eval.1]; norm_num,
   balance_identity_when_border_neutral ones20 (by decide) (by decide)
    (by rw [means_ones20_eval.1, means_ones20_eval.2.1])
    (by rw [means_ones20_eval.2.1, means_ones20_eval.2.2])
    (by rw [means_ones20_eval.1]; norm_num)⟩
